import Mathlib

/-! Verification of the gelf-rs GELF UDP receiver core against its
specification: a shallow embedding of src/message/chunk.rs,
src/message/mod.rs and src/receiver/chunk_accumulator.rs, followed by
theorems about the embedded operations.  Byte strings are lists of Nat
(each below 256); Rust strings are modelled by their UTF-8 byte lists;
fallible operations return Except, and operations that can panic return
Option (none is the panic). -/

/-- Error cases of the receiver core, one per distinct io error site in
the source (the source attaches message strings to io errors; here each
site gets a constructor). -/
inductive GelfError where
  | PacketTooShort
  | ChunkTooShort
  | InvalidUtf8
  | DecompressionError
  | SequenceOutOfRange
  | ReaperUnavailable
  deriving DecidableEq, Repr

/-- Chunk of a chunked GELF message (src/message/chunk.rs). The arrival
Timespec is modelled as an integer timestamp. -/
structure Chunk where
  id : List Nat
  sequence_number : Nat
  sequence_count : Nat
  payload : List Nat
  arrival : Int
  deriving DecidableEq, Repr

/-- Chunk.from_packet (src/message/chunk.rs lines 15-31). The source
guard is packet.len() > 12; on success it reads id from bytes 2..10,
sequence_number from byte 10, sequence_count from byte 11 and payload
from byte 12 to the end; get_time() is passed in as now. The getD
defaults can never be hit under the length guard. -/
def Chunk.from_packet (now : Int) (packet : List Nat) : Except GelfError Chunk :=
  if packet.length > 12 then
    Except.ok
      { id := (packet.drop 2).take 8
        sequence_number := packet.getD 10 0
        sequence_count := packet.getD 11 0
        payload := packet.drop 12
        arrival := now }
  else
    Except.error GelfError.ChunkTooShort

/-- Continuation byte of a UTF-8 sequence (0x80..0xBF). -/
def utf8Cont (b : Nat) : Bool := 0x80 ≤ b && b ≤ 0xbf

/-- Validity of a byte list as UTF-8, the check std str::from_utf8 and
read_to_string perform (RFC 3629 ranges, surrogates and overlong forms
rejected). -/
def validUtf8 : List Nat → Bool
  | [] => true
  | b :: rest =>
    if b ≤ 0x7f then validUtf8 rest
    else if 0xc2 ≤ b && b ≤ 0xdf then
      match rest with
      | c :: r => utf8Cont c && validUtf8 r
      | [] => false
    else if b = 0xe0 then
      match rest with
      | c :: d :: r => (0xa0 ≤ c && c ≤ 0xbf) && utf8Cont d && validUtf8 r
      | _ => false
    else if 0xe1 ≤ b && b ≤ 0xec then
      match rest with
      | c :: d :: r => utf8Cont c && utf8Cont d && validUtf8 r
      | _ => false
    else if b = 0xed then
      match rest with
      | c :: d :: r => (0x80 ≤ c && c ≤ 0x9f) && utf8Cont d && validUtf8 r
      | _ => false
    else if 0xee ≤ b && b ≤ 0xef then
      match rest with
      | c :: d :: r => utf8Cont c && utf8Cont d && validUtf8 r
      | _ => false
    else if b = 0xf0 then
      match rest with
      | c :: d :: e :: r => (0x90 ≤ c && c ≤ 0xbf) && utf8Cont d && utf8Cont e && validUtf8 r
      | _ => false
    else if 0xf1 ≤ b && b ≤ 0xf3 then
      match rest with
      | c :: d :: e :: r => utf8Cont c && utf8Cont d && utf8Cont e && validUtf8 r
      | _ => false
    else if b = 0xf4 then
      match rest with
      | c :: d :: e :: r => (0x80 ≤ c && c ≤ 0x8f) && utf8Cont d && utf8Cont e && validUtf8 r
      | _ => false
    else false

/-- Modelled from the spec: the flate2 crate's GzDecoder and ZlibDecoder
are outside this repository, so a codec supplies the two byte-level
decompressors as parameters; read_to_string is a decode followed by the
UTF-8 validation, which stays in the embedding below. -/
structure Codec where
  gz_decode : List Nat → Except GelfError (List Nat)
  zlib_decode : List Nat → Except GelfError (List Nat)

/-- The zlib header check is_zlib (src/message/mod.rs lines 34-37): the
RFC 1950 FCHECK congruence over the first two bytes. The u16 arithmetic
cannot overflow (256 * 0x78 + 255 < 65536), so plain Nat is faithful. -/
def is_zlib (second_byte : Nat) : Bool :=
  (256 * 0x78 + second_byte) % 31 == 0

/-- The raw path unpack_uncompressed (src/message/mod.rs lines 52-58):
str::from_utf8 validates the bytes and returns them as the string. -/
def unpack_uncompressed (packet : List Nat) : Except GelfError (List Nat) :=
  if validUtf8 packet then Except.ok packet
  else Except.error GelfError.InvalidUtf8

/-- The gzip path unpack_gzip (src/message/mod.rs lines 39-44): decode
the whole stream, then read_to_string's UTF-8 validation. -/
def unpack_gzip (C : Codec) (packet : List Nat) : Except GelfError (List Nat) :=
  match C.gz_decode packet with
  | Except.error e => Except.error e
  | Except.ok bytes =>
    if validUtf8 bytes then Except.ok bytes
    else Except.error GelfError.InvalidUtf8

/-- The zlib path unpack_zlib (src/message/mod.rs lines 46-50). -/
def unpack_zlib (C : Codec) (packet : List Nat) : Except GelfError (List Nat) :=
  match C.zlib_decode packet with
  | Except.error e => Except.error e
  | Except.ok bytes =>
    if validUtf8 bytes then Except.ok bytes
    else Except.error GelfError.InvalidUtf8

/-- unpack_complete (src/message/mod.rs lines 23-32). The source match
arms in order: gzip magic, zlib first byte with the FCHECK guard (a
failed guard falls through), any other two-or-more-byte packet raw, and
the too-short error otherwise. -/
def unpack_complete (C : Codec) (packet : List Nat) : Except GelfError (List Nat) :=
  match packet with
  | b0 :: b1 :: _ =>
    if b0 = 0x1f ∧ b1 = 0x8b then unpack_gzip C packet
    else if b0 = 0x78 ∧ is_zlib b1 then unpack_zlib C packet
    else unpack_uncompressed packet
  | _ => Except.error GelfError.PacketTooShort

/-- Payload variants returned by the classifier (src/message/mod.rs
lines 11-14); a Complete string is its UTF-8 byte list. -/
inductive Payload where
  | Complete : List Nat → Payload
  | Partial : Chunk → Payload
  deriving DecidableEq, Repr

/-- unpack (src/message/mod.rs lines 16-21): the chunk magic 0x1e 0x0f
routes to Chunk.from_packet, everything else to unpack_complete. -/
def unpack (C : Codec) (now : Int) (packet : List Nat) : Except GelfError Payload :=
  match packet with
  | b0 :: b1 :: _ =>
    if b0 = 0x1e ∧ b1 = 0x0f then
      (Chunk.from_packet now packet).map Payload.Partial
    else
      (unpack_complete C packet).map Payload.Complete
  | _ => (unpack_complete C packet).map Payload.Complete

/-- ChunkSetState (src/receiver/chunk_accumulator.rs lines 127-130). -/
inductive ChunkSetState where
  | Partial
  | Complete
  deriving DecidableEq, Repr

/-- ChunkSet (src/receiver/chunk_accumulator.rs lines 132-137). -/
structure ChunkSet where
  chunks : List (Option Chunk)
  rcv_count : Nat
  first_arrival : Int
  deriving DecidableEq, Repr

/-- ChunkSet.new (src/receiver/chunk_accumulator.rs lines 140-150):
sequence_count empty slots, the first chunk's arrival, rcv_count 0. -/
def ChunkSet.new (chunk : Chunk) : ChunkSet :=
  { chunks := List.replicate chunk.sequence_count none
    rcv_count := 0
    first_arrival := chunk.arrival }

/-- ChunkSet.accept (src/receiver/chunk_accumulator.rs lines 152-167).
The source computes sequence_number as usize - 1 and indexes the chunks
vector with it, with no range check: both the usize underflow at
sequence_number = 0 and an out-of-bounds index abort the thread (panic),
modelled as none. An empty slot is filled and rcv_count incremented;
a filled slot silently drops the duplicate. -/
def ChunkSet.accept (s : ChunkSet) (chunk : Chunk) : Option (ChunkSet × ChunkSetState) :=
  if chunk.sequence_number = 0 then none
  else
    let number := chunk.sequence_number - 1
    match s.chunks[number]? with
    | none => none
    | some (some _) => some (s, ChunkSetState.Partial)
    | some none =>
      let s' : ChunkSet :=
        { s with chunks := s.chunks.set number (some chunk)
                 rcv_count := s.rcv_count + 1 }
      if s'.rcv_count = s'.chunks.length then some (s', ChunkSetState.Complete)
      else some (s', ChunkSetState.Partial)

/-- Drains the slot vector, unwrapping every slot; none models the
unwrap panic on an empty slot inside ChunkSet.unpack's drain loop. -/
def drainAll : List (Option Chunk) → Option (List Chunk)
  | [] => some []
  | none :: _ => none
  | some c :: rest => (drainAll rest).map (c :: ·)

/-- ChunkSet.unpack (src/receiver/chunk_accumulator.rs lines 176-182):
drain the chunks vector (leaving it empty), unwrap each slot (panic on
an empty one), concatenate payloads in slot order and hand the bytes to
unpack_complete. rcv_count and first_arrival are untouched. -/
def ChunkSet.unpack (C : Codec) (s : ChunkSet) :
    Option (Except GelfError (List Nat) × ChunkSet) :=
  match drainAll s.chunks with
  | none => none
  | some cs =>
    some (unpack_complete C (cs.map Chunk.payload).flatten, { s with chunks := [] })

/-- Observable actions of one ChunkAccumulator.accept call in source
order: taking the table mutex, the send on the reaper channel, the
HashMap insert, and the release of the mutex when the map guard drops at
return. -/
inductive AccEvent where
  | lock
  | send : List Nat → AccEvent
  | insert : List Nat → AccEvent
  | unlock
  deriving DecidableEq, Repr

/-- ChunkAccumulator state (src/receiver/chunk_accumulator.rs lines
24-28): the HashMap from message id to in-flight ChunkSet behind its
mutex, modelled as a function, and whether the receiving end of the
reaper signal channel still exists. -/
structure ChunkAccumulator where
  map : List Nat → Option ChunkSet
  reaperAlive : Bool

/-- Accumulator as ChunkAccumulator.new creates it: empty table and a
live reaper thread holding the channel's receiving end. -/
def ChunkAccumulator.fresh : ChunkAccumulator :=
  { map := fun _ => none, reaperAlive := true }

/-- ChunkAccumulator.accept (src/receiver/chunk_accumulator.rs lines
49-78). none models a panic: the chunks-vector index panic inside
ChunkSet.accept, or the expect on the reaper send when the channel is
gone. Otherwise the Ok value (some completed set, removed from the
table, or none), the new state, and the ordered event list of the call:
on the new-partial path the source sends the eviction entry first and
inserts into the map after it, both while the map guard is held. -/
def ChunkAccumulator.accept (acc : ChunkAccumulator) (chunk : Chunk) :
    Option (Option ChunkSet × ChunkAccumulator × List AccEvent) :=
  let id := chunk.id
  match acc.map id with
  | some set =>
    match set.accept chunk with
    | none => none
    | some (set', ChunkSetState.Complete) =>
      some (some set',
        { acc with map := fun k => if k = id then none else acc.map k },
        [AccEvent.lock, AccEvent.unlock])
    | some (set', ChunkSetState.Partial) =>
      some (none,
        { acc with map := fun k => if k = id then some set' else acc.map k },
        [AccEvent.lock, AccEvent.unlock])
  | none =>
    let new_set := ChunkSet.new chunk
    match new_set.accept chunk with
    | none => none
    | some (set', ChunkSetState.Complete) =>
      some (some set', acc, [AccEvent.lock, AccEvent.unlock])
    | some (set', ChunkSetState.Partial) =>
      if acc.reaperAlive then
        some (none,
          { acc with map := fun k => if k = id then some set' else acc.map k },
          [AccEvent.lock, AccEvent.send id, AccEvent.insert id, AccEvent.unlock])
      else none

/-- Feeds chunks one at a time through ChunkAccumulator.accept,
collecting each call's Ok value; none if any call panics. -/
def ChunkAccumulator.feed (acc : ChunkAccumulator) :
    List Chunk → Option (List (Option ChunkSet) × ChunkAccumulator)
  | [] => some ([], acc)
  | c :: cs =>
    match acc.accept c with
    | none => none
    | some (r, acc', _) =>
      match acc'.feed cs with
      | none => none
      | some (rs, acc'') => some (r :: rs, acc'')

/-- Concrete stand-in codec for witnesses: its encodings prepend the two
magic header bytes and its decoders drop them, satisfying the round-trip
contract the spec states for the external flate2 codecs. -/
def storeCodec : Codec :=
  { gz_decode := fun p => Except.ok (p.drop 2)
    zlib_decode := fun p => Except.ok (p.drop 2) }

/-- Stand-in zlib encoding matching storeCodec: the header 0x78 0x01
(which passes the FCHECK congruence) followed by the raw bytes. -/
def zlib_encode (s : List Nat) : List Nat := 0x78 :: 0x01 :: s

/-- Stand-in gzip encoding matching storeCodec: the gzip magic followed
by the raw bytes. -/
def gzip_encode (s : List Nat) : List Nat := 0x1f :: 0x8b :: s

/-- C2 (code bug): the claim, and the parser's own error message, ask
for success on every packet of at least 12 bytes, but the source guard
packet.len() > 12 rejects the exactly-12-byte packet (empty payload)
with the ChunkTooShort error. This theorem evaluates the parser at the
failing 12-byte input, and at a 13-byte input where it extracts the
fields exactly as the claim describes. -/
theorem from_packet_twelve_bytes_bug :
    Chunk.from_packet 0 [0x1e, 0x0f, 1, 2, 3, 4, 5, 6, 7, 8, 1, 1]
      = Except.error GelfError.ChunkTooShort ∧
    Chunk.from_packet 0 [0x1e, 0x0f, 1, 2, 3, 4, 5, 6, 7, 8, 1, 1, 0x61]
      = Except.ok { id := [1, 2, 3, 4, 5, 6, 7, 8], sequence_number := 1,
                    sequence_count := 1, payload := [0x61], arrival := 0 } := by
  exact ⟨rfl, rfl⟩

/-- C9: every input of fewer than 2 bytes makes unpack return the
PacketTooShort error, and neither a Complete nor a Partial payload. -/
theorem unpack_short_packet (C : Codec) (now : Int) (packet : List Nat)
    (h : packet.length < 2) :
    unpack C now packet = Except.error GelfError.PacketTooShort := by
  match packet with
  | [] => rfl
  | [b] => rfl
  | b0 :: b1 :: rest =>
    simp [List.length_cons] at h
    omega

/-- C9 witness: the one-byte datagram 0x0f yields PacketTooShort. -/
theorem unpack_short_packet_witness :
    [(0x0f : Nat)].length < 2 ∧
    unpack storeCodec 0 [0x0f] = Except.error GelfError.PacketTooShort :=
  ⟨by decide, unpack_short_packet storeCodec 0 [0x0f] (by decide)⟩

/-- C5: the packet classifier dispatches on leading bytes: the chunk
magic 0x1e 0x0f routes unpack to the chunk path (Partial payload via
Chunk.from_packet); the gzip magic 0x1f 0x8b routes unpack_complete to
the gzip path; a first byte 0x78 whose second byte y satisfies the full
RFC 1950 FCHECK congruence (0x78 * 256 + y) % 31 = 0 routes to the zlib
path, for every such y; any other packet of at least 2 bytes takes the
raw UTF-8 path. -/
theorem unpack_dispatch (C : Codec) (now : Int) (b0 b1 : Nat) (rest : List Nat) :
    (b0 = 0x1e → b1 = 0x0f →
      unpack C now (b0 :: b1 :: rest)
        = (Chunk.from_packet now (b0 :: b1 :: rest)).map Payload.Partial) ∧
    (b0 = 0x1f → b1 = 0x8b →
      unpack_complete C (b0 :: b1 :: rest) = unpack_gzip C (b0 :: b1 :: rest)) ∧
    (b0 = 0x78 → (0x78 * 256 + b1) % 31 = 0 →
      unpack_complete C (b0 :: b1 :: rest) = unpack_zlib C (b0 :: b1 :: rest)) ∧
    (¬(b0 = 0x1e ∧ b1 = 0x0f) → ¬(b0 = 0x1f ∧ b1 = 0x8b) →
      ¬(b0 = 0x78 ∧ is_zlib b1 = true) →
      unpack C now (b0 :: b1 :: rest)
        = (unpack_uncompressed (b0 :: b1 :: rest)).map Payload.Complete) := by
  refine ⟨?_, ?_, ?_, ?_⟩
  · intro h0 h1; subst h0; subst h1
    simp [unpack]
  · intro h0 h1; subst h0; subst h1
    simp [unpack_complete]
  · intro h0 hy; subst h0
    have hz : is_zlib b1 = true := by
      simp [is_zlib]
      omega
    simp [unpack_complete, hz]
  · intro h1 h2 h3
    simp [unpack, unpack_complete, h1, h2, h3]

/-- C5 witness: the four dispatch branches at concrete packets; the
zlib case uses the default-level second byte 0x9c, not 0x01. -/
theorem unpack_dispatch_witness :
    unpack storeCodec 0 [0x1e, 0x0f, 0, 0]
      = (Chunk.from_packet 0 [0x1e, 0x0f, 0, 0]).map Payload.Partial ∧
    unpack_complete storeCodec [0x1f, 0x8b, 7]
      = unpack_gzip storeCodec [0x1f, 0x8b, 7] ∧
    unpack_complete storeCodec [0x78, 0x9c, 7]
      = unpack_zlib storeCodec [0x78, 0x9c, 7] ∧
    unpack storeCodec 0 [0x41, 0x42]
      = (unpack_uncompressed [0x41, 0x42]).map Payload.Complete :=
  ⟨(unpack_dispatch storeCodec 0 0x1e 0x0f [0, 0]).1 rfl rfl,
   (unpack_dispatch storeCodec 0 0x1f 0x8b [7]).2.1 rfl rfl,
   (unpack_dispatch storeCodec 0 0x78 0x9c [7]).2.2.1 rfl (by decide),
   (unpack_dispatch storeCodec 0 0x41 0x42 []).2.2.2 (by decide) (by decide) (by decide)⟩

/-- C6 counterexample: with a codec whose decode inverts the encoding
(shown at this very input), unpack_complete on the zlib and on the gzip
encoding of the byte string 0xff does not return that byte string:
read_to_string demands UTF-8, and the lone byte 0xff is not valid
UTF-8, so both paths fail with InvalidUtf8. -/
theorem unpack_complete_roundtrip_cex :
    storeCodec.zlib_decode (zlib_encode [0xff]) = Except.ok [0xff] ∧
    storeCodec.gz_decode (gzip_encode [0xff]) = Except.ok [0xff] ∧
    unpack_complete storeCodec (zlib_encode [0xff])
      = Except.error GelfError.InvalidUtf8 ∧
    unpack_complete storeCodec (gzip_encode [0xff])
      = Except.error GelfError.InvalidUtf8 := by
  exact ⟨rfl, rfl, rfl, rfl⟩

/-- C6 amended: the round-trip holds for every byte string that is
valid UTF-8 (unpack_complete produces a Rust String, so read_to_string
rejects non-UTF-8 decompressed bytes): for any codec and encoders such
that decoding inverts encoding and the encodings carry their format's
magic header, unpack_complete returns exactly the original bytes. -/
theorem unpack_complete_roundtrip (C : Codec) (zenc genc : List Nat → List Nat)
    (s : List Nat) (hutf : validUtf8 s = true)
    (hz : C.zlib_decode (zenc s) = Except.ok s)
    (hg : C.gz_decode (genc s) = Except.ok s)
    (hzm : ∃ y r, zenc s = 0x78 :: y :: r ∧ is_zlib y = true)
    (hgm : ∃ r, genc s = 0x1f :: 0x8b :: r) :
    unpack_complete C (zenc s) = Except.ok s ∧
    unpack_complete C (genc s) = Except.ok s := by
  obtain ⟨y, r, hzs, hy⟩ := hzm
  obtain ⟨r2, hgs⟩ := hgm
  rw [hzs] at hz
  rw [hgs] at hg
  constructor
  · rw [hzs]
    simp [unpack_complete, hy, unpack_zlib, hz, hutf]
  · rw [hgs]
    simp [unpack_complete, unpack_gzip, hg, hutf]

/-- C6 witness: the amended round-trip at the ASCII byte string hi with
the stand-in codec. -/
theorem unpack_complete_roundtrip_witness :
    validUtf8 [0x68, 0x69] = true ∧
    unpack_complete storeCodec (zlib_encode [0x68, 0x69]) = Except.ok [0x68, 0x69] ∧
    unpack_complete storeCodec (gzip_encode [0x68, 0x69]) = Except.ok [0x68, 0x69] := by
  have h := unpack_complete_roundtrip storeCodec zlib_encode gzip_encode [0x68, 0x69]
    (by decide) rfl rfl ⟨0x01, [0x68, 0x69], rfl, by decide⟩ ⟨[0x68, 0x69], rfl⟩
  exact ⟨by decide, h.1, h.2⟩

/-- C3 counterexample: a ChunkSet with a single slot fed a chunk whose
sequence_number is 3 (internal index 2, out of range) does not get a
SequenceOutOfRange error value back: the call aborts on the vector
index (none models the panic), and ChunkSet.accept's result type has no
error case at all. -/
theorem chunkset_accept_out_of_range_cex :
    ChunkSet.accept
      { chunks := [none], rcv_count := 0, first_arrival := 0 }
      { id := [1, 2, 3, 4, 5, 6, 7, 8], sequence_number := 3,
        sequence_count := 1, payload := [], arrival := 0 } = none := by
  rfl

/-- C3 amended: whenever the internal index sequence_number - 1 lies at
or beyond slots.len() (or sequence_number is 0 and the usize
subtraction underflows), ChunkSet.accept panics - the unchecked vector
index aborts the call, modelled as none - rather than returning a
SequenceOutOfRange error value; no mutated set is produced. -/
theorem chunkset_accept_out_of_range (s : ChunkSet) (c : Chunk)
    (h : c.sequence_number = 0 ∨ s.chunks.length ≤ c.sequence_number - 1) :
    ChunkSet.accept s c = none := by
  unfold ChunkSet.accept
  rcases h with h | h
  · simp [h]
  · by_cases h0 : c.sequence_number = 0
    · simp [h0]
    · simp [h0, List.getElem?_eq_none h]

/-- C3 witness for the amended theorem: the out-of-range index of the
counterexample input discharges the range hypothesis. -/
theorem chunkset_accept_out_of_range_witness :
    ((3 : Nat) = 0 ∨ ([(none : Option Chunk)] : List (Option Chunk)).length ≤ 3 - 1) ∧
    ChunkSet.accept
      { chunks := [none], rcv_count := 0, first_arrival := 0 }
      { id := [9, 9, 9, 9, 9, 9, 9, 9], sequence_number := 3,
        sequence_count := 1, payload := [7], arrival := 1 } = none :=
  ⟨Or.inr (by decide),
   chunkset_accept_out_of_range
     { chunks := [none], rcv_count := 0, first_arrival := 0 }
     { id := [9, 9, 9, 9, 9, 9, 9, 9], sequence_number := 3,
       sequence_count := 1, payload := [7], arrival := 1 }
     (Or.inr (by decide))⟩

/-- C4: accepting a chunk whose slot is already filled returns Partial
with the set unchanged - the duplicate is silently dropped, no error,
and in particular rcv_count and every slot keep their values. -/
theorem chunkset_accept_duplicate (s : ChunkSet) (c old : Chunk)
    (h0 : c.sequence_number ≠ 0)
    (h : s.chunks[c.sequence_number - 1]? = some (some old)) :
    ChunkSet.accept s c = some (s, ChunkSetState.Partial) := by
  unfold ChunkSet.accept
  simp [h0, h]

/-- C4 witness: a duplicate of slot 0 in a two-slot set is dropped and
the set, rcv_count included, is returned unchanged. -/
theorem chunkset_accept_duplicate_witness :
    ChunkSet.accept
      { chunks := [some { id := [1], sequence_number := 1, sequence_count := 2,
                          payload := [0x61], arrival := 0 }, none],
        rcv_count := 1, first_arrival := 0 }
      { id := [1], sequence_number := 1, sequence_count := 2,
        payload := [0x62], arrival := 5 }
      = some ({ chunks := [some { id := [1], sequence_number := 1, sequence_count := 2,
                                  payload := [0x61], arrival := 0 }, none],
                rcv_count := 1, first_arrival := 0 }, ChunkSetState.Partial) :=
  chunkset_accept_duplicate _ _
    { id := [1], sequence_number := 1, sequence_count := 2,
      payload := [0x61], arrival := 0 }
    (by decide) (by decide)

/-- C8 counterexample: with the reaper channel gone, registering a new
partial set does not return a ReaperUnavailable error value: the source
calls expect on the failed send, which aborts the call (none models the
panic), and the function never constructs an error value at all. -/
theorem accept_reaper_gone_cex :
    ChunkAccumulator.accept
      { map := fun _ => none, reaperAlive := false }
      { id := [1, 2, 3, 4, 5, 6, 7, 8], sequence_number := 1,
        sequence_count := 2, payload := [0x61], arrival := 0 } = none := by
  rfl

/-- C8 amended: when accept must register a new partial ChunkSet and
the reaper signal channel is gone, the call panics (the expect with the
message about the Reaper thread, modelled none) instead of surfacing a
ReaperUnavailable error value to the caller. -/
theorem accept_reaper_gone (acc : ChunkAccumulator) (c : Chunk)
    (hmap : acc.map c.id = none) (hdead : acc.reaperAlive = false)
    (h1 : 1 ≤ c.sequence_number) (h2 : c.sequence_number ≤ c.sequence_count)
    (h3 : 2 ≤ c.sequence_count) :
    ChunkAccumulator.accept acc c = none := by
  have h0 : c.sequence_number ≠ 0 := by omega
  have hidx : c.sequence_number - 1 < c.sequence_count := by omega
  have hslot : (List.replicate c.sequence_count (none : Option Chunk))[c.sequence_number - 1]?
      = some none := by
    simp [List.getElem?_replicate, hidx]
  have hne : ¬((1 : Nat) = c.sequence_count) := by omega
  simp [ChunkAccumulator.accept, hmap, ChunkSet.accept, h0, hslot, ChunkSet.new, hne, hdead]

/-- C8 witness for the amended theorem: a fresh two-chunk message with
the channel gone panics. -/
theorem accept_reaper_gone_witness :
    ChunkAccumulator.accept
      { map := fun _ => none, reaperAlive := false }
      { id := [8, 7, 6, 5, 4, 3, 2, 1], sequence_number := 2,
        sequence_count := 3, payload := [], arrival := 4 } = none :=
  accept_reaper_gone
    { map := fun _ => none, reaperAlive := false }
    { id := [8, 7, 6, 5, 4, 3, 2, 1], sequence_number := 2,
      sequence_count := 3, payload := [], arrival := 4 }
    rfl rfl (by decide) (by decide) (by decide)

/-- C7 counterexample: on the first fragment of a new two-chunk message
the accept call posts the EvictionEntry signal to the reaper BEFORE
inserting the new ChunkSet into the table: in the call's event trace the
send stands at index 1 and the insert at index 2, the opposite of the
claimed insert-then-send order. -/
theorem accept_send_before_insert_cex :
    (ChunkAccumulator.accept ChunkAccumulator.fresh
        { id := [9, 9, 9, 9, 9, 9, 9, 9], sequence_number := 1,
          sequence_count := 2, payload := [], arrival := 0 }).map (fun r => r.2.2)
      = some [AccEvent.lock, AccEvent.send [9, 9, 9, 9, 9, 9, 9, 9],
              AccEvent.insert [9, 9, 9, 9, 9, 9, 9, 9], AccEvent.unlock] ∧
    List.indexOf (AccEvent.send [9, 9, 9, 9, 9, 9, 9, 9])
        [AccEvent.lock, AccEvent.send [9, 9, 9, 9, 9, 9, 9, 9],
         AccEvent.insert [9, 9, 9, 9, 9, 9, 9, 9], AccEvent.unlock] = 1 ∧
    List.indexOf (AccEvent.insert [9, 9, 9, 9, 9, 9, 9, 9])
        [AccEvent.lock, AccEvent.send [9, 9, 9, 9, 9, 9, 9, 9],
         AccEvent.insert [9, 9, 9, 9, 9, 9, 9, 9], AccEvent.unlock] = 2 := by
  exact ⟨rfl, by decide, by decide⟩

/-- C7 amended: when accept handles the first fragment of a new, not yet
complete message id with the reaper alive, it posts the EvictionEntry
signal first and inserts the new ChunkSet into the table after it, but
both actions happen between taking and releasing the table lock; it is
the lock (which the reaper must also take before removing), not the
claimed insert-then-send order, that keeps the reaper from observing an
eviction entry for a key absent from the table. -/
theorem accept_events_under_lock (acc : ChunkAccumulator) (c : Chunk)
    (hmap : acc.map c.id = none) (halive : acc.reaperAlive = true)
    (h1 : 1 ≤ c.sequence_number) (h2 : c.sequence_number ≤ c.sequence_count)
    (h3 : 2 ≤ c.sequence_count) :
    (ChunkAccumulator.accept acc c).map (fun r => (r.1, r.2.2))
      = some (none,
          [AccEvent.lock, AccEvent.send c.id, AccEvent.insert c.id, AccEvent.unlock]) := by
  have h0 : c.sequence_number ≠ 0 := by omega
  have hidx : c.sequence_number - 1 < c.sequence_count := by omega
  have hslot : (List.replicate c.sequence_count (none : Option Chunk))[c.sequence_number - 1]?
      = some none := by
    simp [List.getElem?_replicate, hidx]
  have hne : ¬((1 : Nat) = c.sequence_count) := by omega
  simp [ChunkAccumulator.accept, hmap, ChunkSet.accept, h0, hslot, ChunkSet.new, hne, halive]

/-- C7 witness for the amended theorem: the trace of the counterexample
input, obtained through the theorem. -/
theorem accept_events_under_lock_witness :
    (ChunkAccumulator.accept ChunkAccumulator.fresh
        { id := [3, 1, 4, 1, 5, 9, 2, 6], sequence_number := 2,
          sequence_count := 2, payload := [0x41], arrival := 7 }).map (fun r => (r.1, r.2.2))
      = some (none,
          [AccEvent.lock, AccEvent.send [3, 1, 4, 1, 5, 9, 2, 6],
           AccEvent.insert [3, 1, 4, 1, 5, 9, 2, 6], AccEvent.unlock]) :=
  accept_events_under_lock ChunkAccumulator.fresh
    { id := [3, 1, 4, 1, 5, 9, 2, 6], sequence_number := 2,
      sequence_count := 2, payload := [0x41], arrival := 7 }
    rfl rfl (by decide) (by decide) (by decide)

/-- C10: ChunkSet.unpack is destructive: on a set whose every slot is
filled it drains the slot vector, so afterwards no stored chunk remains
(the chunks list is empty), and a second unpack on the same set does not
return the message again: it concatenates nothing and gets from
unpack_complete the packet-too-short error for the empty byte string. -/
theorem chunkset_unpack_destructive (C : Codec) (s : ChunkSet) (cs : List Chunk)
    (hfull : drainAll s.chunks = some cs) :
    ChunkSet.unpack C s
      = some (unpack_complete C (cs.map Chunk.payload).flatten, { s with chunks := [] }) ∧
    ChunkSet.unpack C { s with chunks := [] }
      = some (Except.error GelfError.PacketTooShort, { s with chunks := [] }) := by
  constructor
  · simp [ChunkSet.unpack, hfull]
  · rfl

/-- C10 witness: a complete two-slot set unpacks once (draining both
chunks) and the second unpack fails with PacketTooShort. -/
theorem chunkset_unpack_destructive_witness :
    drainAll [some { id := [1], sequence_number := 1, sequence_count := 2,
                     payload := [0x41], arrival := 0 },
              some { id := [1], sequence_number := 2, sequence_count := 2,
                     payload := [0x42], arrival := 0 }]
      = some [{ id := [1], sequence_number := 1, sequence_count := 2,
                payload := [0x41], arrival := 0 },
              { id := [1], sequence_number := 2, sequence_count := 2,
                payload := [0x42], arrival := 0 }] ∧
    ChunkSet.unpack storeCodec
        { chunks := [some { id := [1], sequence_number := 1, sequence_count := 2,
                            payload := [0x41], arrival := 0 },
                     some { id := [1], sequence_number := 2, sequence_count := 2,
                            payload := [0x42], arrival := 0 }],
          rcv_count := 2, first_arrival := 0 }
      = some (unpack_complete storeCodec
                ([{ id := [1], sequence_number := 1, sequence_count := 2,
                    payload := [0x41], arrival := 0 },
                  { id := [1], sequence_number := 2, sequence_count := 2,
                    payload := [0x42], arrival := 0 }].map Chunk.payload).flatten,
              { chunks := [], rcv_count := 2, first_arrival := 0 }) ∧
    ChunkSet.unpack storeCodec { chunks := [], rcv_count := 2, first_arrival := 0 }
      = some (Except.error GelfError.PacketTooShort,
              { chunks := [], rcv_count := 2, first_arrival := 0 }) := by
  have h := chunkset_unpack_destructive storeCodec
    { chunks := [some { id := [1], sequence_number := 1, sequence_count := 2,
                        payload := [0x41], arrival := 0 },
                 some { id := [1], sequence_number := 2, sequence_count := 2,
                        payload := [0x42], arrival := 0 }],
      rcv_count := 2, first_arrival := 0 }
    [{ id := [1], sequence_number := 1, sequence_count := 2,
       payload := [0x41], arrival := 0 },
     { id := [1], sequence_number := 2, sequence_count := 2,
       payload := [0x42], arrival := 0 }] rfl
  exact ⟨rfl, h.1, h.2⟩

/-- Functional form of the two mutations ChunkSet.accept performs on an
empty slot: install the chunk at its internal index and increment
rcv_count. -/
def fillSlot (s : ChunkSet) (c : Chunk) : ChunkSet :=
  { s with
      chunks := s.chunks.set (c.sequence_number - 1) (some c)
      rcv_count := s.rcv_count + 1 }

/-- Fill step of ChunkSet.accept on an empty in-range slot: the chunk is
installed, rcv_count grows by one, and the state is Complete exactly
when the new count reaches the slot count. -/
lemma chunkSet_accept_empty_slot (s : ChunkSet) (c : Chunk)
    (h0 : c.sequence_number ≠ 0)
    (hslot : s.chunks[c.sequence_number - 1]? = some none) :
    ChunkSet.accept s c
      = if s.rcv_count + 1 = s.chunks.length then
          some (fillSlot s c, ChunkSetState.Complete)
        else
          some (fillSlot s c, ChunkSetState.Partial) := by
  unfold ChunkSet.accept fillSlot
  simp [h0, hslot]

/-- ChunkAccumulator.accept when the id is already in the table and the
chunk's slot is empty and in range: the stored set is updated in place;
on completion it is removed from the table and handed back. -/
lemma accumulator_accept_existing (acc : ChunkAccumulator) (c : Chunk) (s : ChunkSet)
    (hmapc : acc.map c.id = some s)
    (h0 : c.sequence_number ≠ 0)
    (hslot : s.chunks[c.sequence_number - 1]? = some none) :
    ChunkAccumulator.accept acc c
      = if s.rcv_count + 1 = s.chunks.length then
          some (some (fillSlot s c),
                { acc with map := fun k => if k = c.id then none else acc.map k },
                [AccEvent.lock, AccEvent.unlock])
        else
          some (none,
                { acc with map := fun k => if k = c.id then some (fillSlot s c) else acc.map k },
                [AccEvent.lock, AccEvent.unlock]) := by
  have h := chunkSet_accept_empty_slot s c h0 hslot
  by_cases hc : s.rcv_count + 1 = s.chunks.length
  · rw [if_pos hc] at h ⊢
    simp [ChunkAccumulator.accept, hmapc, h]
  · rw [if_neg hc] at h ⊢
    simp [ChunkAccumulator.accept, hmapc, h]

/-- ChunkAccumulator.accept on an id absent from the table, with a live
reaper and an in-range sequence number: a fresh set receives the chunk;
a one-chunk message completes at once without touching the table,
otherwise the partial set is inserted after the eviction signal. -/
lemma accumulator_accept_new (acc : ChunkAccumulator) (c : Chunk)
    (hmapc : acc.map c.id = none)
    (halive : acc.reaperAlive = true)
    (h0 : c.sequence_number ≠ 0)
    (hidx : c.sequence_number - 1 < c.sequence_count) :
    ChunkAccumulator.accept acc c
      = if 1 = c.sequence_count then
          some (some (fillSlot (ChunkSet.new c) c), acc, [AccEvent.lock, AccEvent.unlock])
        else
          some (none,
                { acc with map := fun k =>
                    if k = c.id then some (fillSlot (ChunkSet.new c) c) else acc.map k },
                [AccEvent.lock, AccEvent.send c.id, AccEvent.insert c.id, AccEvent.unlock]) := by
  have hslot : (ChunkSet.new c).chunks[c.sequence_number - 1]? = some none := by
    simp [ChunkSet.new, List.getElem?_replicate, hidx]
  have h := chunkSet_accept_empty_slot (ChunkSet.new c) c h0 hslot
  by_cases hc : (1 : Nat) = c.sequence_count
  · rw [if_pos hc]
    rw [if_pos (by simp [ChunkSet.new]; omega)] at h
    simp [ChunkAccumulator.accept, hmapc, h]
  · rw [if_neg hc]
    rw [if_neg (by simp [ChunkSet.new]; omega)] at h
    simp [ChunkAccumulator.accept, hmapc, h, halive]

/-- Slot count is preserved by a fill. -/
lemma fillSlot_length (s : ChunkSet) (c : Chunk) :
    (fillSlot s c).chunks.length = s.chunks.length := by
  simp [fillSlot]

/-- The filled slot holds the installed chunk. -/
lemma fillSlot_get_self (s : ChunkSet) (c : Chunk)
    (h : c.sequence_number - 1 < s.chunks.length) :
    (fillSlot s c).chunks[c.sequence_number - 1]? = some (some c) := by
  simp [fillSlot, List.getElem?_set_self h]

/-- Every other slot is untouched by a fill. -/
lemma fillSlot_get_ne (s : ChunkSet) (c : Chunk) (j : Nat)
    (h : j ≠ c.sequence_number - 1) :
    (fillSlot s c).chunks[j]? = s.chunks[j]? := by
  simp [fillSlot, List.getElem?_set_ne (Ne.symm h)]

/-- Pigeonhole cover: n pairwise distinct naturals all lying in 1..n hit
every value of 1..n. -/
lemma nodup_range_cover (xs : List Nat) (n : Nat) (hlen : xs.length = n)
    (hnd : xs.Nodup) (hmem : ∀ x ∈ xs, 1 ≤ x ∧ x ≤ n)
    (v : Nat) (h1 : 1 ≤ v) (h2 : v ≤ n) : v ∈ xs := by
  classical
  have hsub : xs.toFinset ⊆ Finset.Icc 1 n := by
    intro x hx
    rw [List.mem_toFinset] at hx
    rw [Finset.mem_Icc]
    exact hmem x hx
  have hcard : (Finset.Icc 1 n).card ≤ xs.toFinset.card := by
    rw [List.toFinset_card_of_nodup hnd, hlen, Nat.card_Icc]
    omega
  have heq := Finset.eq_of_subset_of_card_le hsub hcard
  have hv : v ∈ Finset.Icc 1 n := by
    rw [Finset.mem_Icc]
    exact ⟨h1, h2⟩
  rw [← heq, List.mem_toFinset] at hv
  exact hv

/-- Unfolding of ChunkAccumulator.feed on a cons cell. -/
lemma feed_cons (acc : ChunkAccumulator) (c : Chunk) (cs : List Chunk) :
    ChunkAccumulator.feed acc (c :: cs)
      = match acc.accept c with
        | none => none
        | some (r, acc2, _) =>
          match acc2.feed cs with
          | none => none
          | some (rs, acc3) => some (r :: rs, acc3) := rfl

/-- Loop invariant of feeding the remaining chunks of one message into
an accumulator whose table already holds the message's partial set:
every accept but the last returns none, and the last accept returns the
completed set holding, at each slot j, a fed chunk with sequence number
j + 1. -/
lemma feed_go (n : Nat) (mid : List Nat) (l : List Chunk) (rest : List Chunk) :
    ∀ (acc : ChunkAccumulator) (s : ChunkSet),
      acc.map mid = some s →
      s.chunks.length = n →
      s.rcv_count + rest.length = n →
      rest ≠ [] →
      (∀ c ∈ rest, c.id = mid ∧ 1 ≤ c.sequence_number ∧ c.sequence_number ≤ n) →
      (List.map Chunk.sequence_number rest).Nodup →
      (∀ j, j < n → j + 1 ∈ List.map Chunk.sequence_number rest → s.chunks[j]? = some none) →
      (∀ j, j < n → j + 1 ∉ List.map Chunk.sequence_number rest →
        ∃ c, c ∈ l ∧ c.sequence_number = j + 1 ∧ s.chunks[j]? = some (some c)) →
      (∀ c ∈ rest, c ∈ l) →
      ∃ s' acc',
        ChunkAccumulator.feed acc rest
          = some (List.replicate (rest.length - 1) none ++ [some s'], acc') ∧
        s'.chunks.length = n ∧
        (∀ j, j < n → ∃ c, c ∈ l ∧ c.sequence_number = j + 1 ∧ s'.chunks[j]? = some (some c)) := by
  induction rest with
  | nil =>
    intro acc s _ _ _ hne _ _ _ _ _
    exact absurd rfl hne
  | cons c cs ih =>
    intro acc s hmap hlen hcount _ hprops hnodup hempty hfilled hsub
    obtain ⟨hcid, hc1, hc2⟩ := hprops c (List.mem_cons_self c cs)
    have h0 : c.sequence_number ≠ 0 := by omega
    have hj0 : c.sequence_number - 1 < n := by omega
    have hseq : c.sequence_number - 1 + 1 = c.sequence_number := by omega
    have hmapc : acc.map c.id = some s := by rw [hcid]; exact hmap
    have hslot : s.chunks[c.sequence_number - 1]? = some none := by
      apply hempty _ hj0
      rw [hseq, List.map_cons]
      exact List.mem_cons_self _ _
    have hacc := accumulator_accept_existing acc c s hmapc h0 hslot
    rw [List.map_cons] at hnodup
    obtain ⟨hcnotin, hnodup2⟩ := List.nodup_cons.mp hnodup
    cases cs with
    | nil =>
      have hcomp : s.rcv_count + 1 = s.chunks.length := by
        simp only [List.length_cons, List.length_nil] at hcount
        omega
      rw [if_pos hcomp] at hacc
      refine ⟨fillSlot s c,
        { acc with map := fun k => if k = c.id then none else acc.map k }, ?_, ?_, ?_⟩
      · simp [ChunkAccumulator.feed, hacc]
      · rw [fillSlot_length, hlen]
      · intro j hj
        by_cases hjj : j = c.sequence_number - 1
        · subst hjj
          exact ⟨c, hsub c (List.mem_cons_self c []), hseq.symm ▸ rfl,
            fillSlot_get_self s c (by rw [hlen]; exact hj0)⟩
        · have hnm : j + 1 ∉ List.map Chunk.sequence_number [c] := by
            simp only [List.map_cons, List.map_nil, List.mem_singleton]
            omega
          obtain ⟨c', hcl, hcs, hcslot⟩ := hfilled j hj hnm
          exact ⟨c', hcl, hcs, by rw [fillSlot_get_ne s c j hjj]; exact hcslot⟩
    | cons c2 cs2 =>
      have hncomp : ¬(s.rcv_count + 1 = s.chunks.length) := by
        simp only [List.length_cons] at hcount
        omega
      rw [if_neg hncomp] at hacc
      have hmap2 : ({ acc with
          map := fun k => if k = c.id then some (fillSlot s c) else acc.map k
        } : ChunkAccumulator).map mid = some (fillSlot s c) := by
        simp [hcid]
      have hlen2 : (fillSlot s c).chunks.length = n := by rw [fillSlot_length, hlen]
      have hcount2 : (fillSlot s c).rcv_count + (c2 :: cs2).length = n := by
        simp only [fillSlot, List.length_cons] at hcount ⊢
        omega
      have hempty2 : ∀ j, j < n → j + 1 ∈ List.map Chunk.sequence_number (c2 :: cs2) →
          (fillSlot s c).chunks[j]? = some none := by
        intro j hj hjm
        have hjne : j ≠ c.sequence_number - 1 := by
          intro hh
          apply hcnotin
          rw [hh, hseq] at hjm
          exact hjm
        rw [fillSlot_get_ne s c j hjne]
        apply hempty j hj
        rw [List.map_cons]
        exact List.mem_cons_of_mem _ hjm
      have hfilled2 : ∀ j, j < n → j + 1 ∉ List.map Chunk.sequence_number (c2 :: cs2) →
          ∃ c', c' ∈ l ∧ c'.sequence_number = j + 1 ∧
            (fillSlot s c).chunks[j]? = some (some c') := by
        intro j hj hjm
        by_cases hjj : j = c.sequence_number - 1
        · subst hjj
          exact ⟨c, hsub c (List.mem_cons_self c _), hseq.symm ▸ rfl,
            fillSlot_get_self s c (by rw [hlen]; exact hj0)⟩
        · have hnm : j + 1 ∉ List.map Chunk.sequence_number (c :: c2 :: cs2) := by
            rw [List.map_cons, List.mem_cons]
            rintro (hh | hh)
            · omega
            · exact hjm hh
          obtain ⟨c', hcl, hcs, hcslot⟩ := hfilled j hj hnm
          exact ⟨c', hcl, hcs, by rw [fillSlot_get_ne s c j hjj]; exact hcslot⟩
      obtain ⟨s', acc', hfeed, hlen', hfill'⟩ :=
        ih _ (fillSlot s c) hmap2 hlen2 hcount2 (by simp)
          (fun x hx => hprops x (List.mem_cons_of_mem c hx)) hnodup2 hempty2 hfilled2
          (fun x hx => hsub x (List.mem_cons_of_mem c hx))
      refine ⟨s', acc', ?_, hlen', hfill'⟩
      rw [feed_cons, hacc]
      simp only [hfeed, List.length_cons, Nat.add_sub_cancel, List.replicate_succ,
        List.cons_append]

/-- C1: feeding the n chunks of one message - one shared id, sequence
numbers a permutation of 1..n - one at a time into a fresh
ChunkAccumulator yields none (no completed set) on every accept call
before the last, and exactly one completed result on the final accept:
the reassembled ChunkSet, whose slot j holds a fed chunk with sequence
number j + 1, for every j. -/
theorem accumulator_permutation_complete (n : Nat) (mid : List Nat) (l : List Chunk)
    (hn : 1 ≤ n) (hlen : l.length = n)
    (hmem : ∀ c ∈ l, c.id = mid ∧ c.sequence_count = n ∧
      1 ≤ c.sequence_number ∧ c.sequence_number ≤ n)
    (hnodup : (List.map Chunk.sequence_number l).Nodup) :
    ∃ s acc',
      ChunkAccumulator.feed ChunkAccumulator.fresh l
        = some (List.replicate (n - 1) none ++ [some s], acc') ∧
      s.chunks.length = n ∧
      (∀ j, j < n → ∃ c, c ∈ l ∧ c.sequence_number = j + 1 ∧ s.chunks[j]? = some (some c)) := by
  cases l with
  | nil =>
    rw [List.length_nil] at hlen
    omega
  | cons c cs =>
    obtain ⟨hcid, hccnt, hc1, hc2⟩ := hmem c (List.mem_cons_self c cs)
    have h0 : c.sequence_number ≠ 0 := by omega
    have hj0 : c.sequence_number - 1 < n := by omega
    have hseq : c.sequence_number - 1 + 1 = c.sequence_number := by omega
    have hlcs : cs.length + 1 = n := by simpa using hlen
    have hidx : c.sequence_number - 1 < c.sequence_count := by omega
    have hacc := accumulator_accept_new ChunkAccumulator.fresh c rfl rfl h0 hidx
    have hcover : ∀ v, 1 ≤ v → v ≤ n →
        v ∈ List.map Chunk.sequence_number (c :: cs) := by
      intro v hv1 hv2
      apply nodup_range_cover (List.map Chunk.sequence_number (c :: cs)) n
          (by rw [List.length_map]; exact hlen) hnodup ?_ v hv1 hv2
      intro x hx
      obtain ⟨c', hc'mem, hc'eq⟩ := List.mem_map.mp hx
      obtain ⟨_, _, hx1, hx2⟩ := hmem c' hc'mem
      omega
    have hnodup' := hnodup
    rw [List.map_cons] at hnodup'
    obtain ⟨hcnotin, hnodup2⟩ := List.nodup_cons.mp hnodup'
    by_cases hn1 : (1 : Nat) = c.sequence_count
    · have hn1' : n = 1 := by omega
      subst hn1'
      have hcs : cs = [] := by
        cases cs with
        | nil => rfl
        | cons a b => rw [List.length_cons] at hlcs; omega
      subst hcs
      rw [if_pos hn1] at hacc
      refine ⟨fillSlot (ChunkSet.new c) c, ChunkAccumulator.fresh, ?_, ?_, ?_⟩
      · rw [feed_cons, hacc]
        simp [ChunkAccumulator.feed]
      · rw [fillSlot_length]
        simp [ChunkSet.new, hccnt]
      · intro j hj
        have hj' : j = 0 := by omega
        subst hj'
        have hseq1 : c.sequence_number = 1 := by omega
        refine ⟨c, List.mem_cons_self c [], hseq1, ?_⟩
        have hz : c.sequence_number - 1 = 0 := by omega
        rw [← hz]
        apply fillSlot_get_self
        simp [ChunkSet.new]
        omega
    · have hn2 : 2 ≤ n := by omega
      rw [if_neg hn1] at hacc
      have hcsne : cs ≠ [] := by
        intro hh
        rw [hh, List.length_nil] at hlcs
        omega
      have hempty1 : ∀ j, j < n → j + 1 ∈ List.map Chunk.sequence_number cs →
          (fillSlot (ChunkSet.new c) c).chunks[j]? = some none := by
        intro j hj hjm
        have hjne : j ≠ c.sequence_number - 1 := by
          intro hh
          apply hcnotin
          rw [hh, hseq] at hjm
          exact hjm
        rw [fillSlot_get_ne _ _ _ hjne]
        have hjc : j < c.sequence_count := by omega
        simp [ChunkSet.new, List.getElem?_replicate, hjc]
      have hfilled1 : ∀ j, j < n → j + 1 ∉ List.map Chunk.sequence_number cs →
          ∃ c', c' ∈ (c :: cs) ∧ c'.sequence_number = j + 1 ∧
            (fillSlot (ChunkSet.new c) c).chunks[j]? = some (some c') := by
        intro j hj hjm
        have hjcov := hcover (j + 1) (by omega) (by omega)
        rw [List.map_cons, List.mem_cons] at hjcov
        rcases hjcov with hh | hh
        · have hjj : j = c.sequence_number - 1 := by omega
          subst hjj
          refine ⟨c, List.mem_cons_self c cs, by omega, ?_⟩
          apply fillSlot_get_self
          simp [ChunkSet.new]
          omega
        · exact absurd hh hjm
      obtain ⟨s', acc', hfeed, hlen', hfill'⟩ :=
        feed_go n mid (c :: cs) cs
          { ChunkAccumulator.fresh with
              map := fun k => if k = c.id then some (fillSlot (ChunkSet.new c) c) else ChunkAccumulator.fresh.map k }
          (fillSlot (ChunkSet.new c) c)
          (by simp [hcid])
          (by rw [fillSlot_length]; simp [ChunkSet.new, hccnt])
          (by simp only [fillSlot, ChunkSet.new]; omega)
          hcsne
          (fun x hx => by
            obtain ⟨hx1, _, hx3, hx4⟩ := hmem x (List.mem_cons_of_mem c hx)
            exact ⟨hx1, hx3, hx4⟩)
          hnodup2 hempty1 hfilled1
          (fun x hx => List.mem_cons_of_mem c hx)
      refine ⟨s', acc', ?_, hlen', hfill'⟩
      rw [feed_cons, hacc]
      simp only [hfeed]
      obtain ⟨m, hm⟩ : ∃ m, cs.length = m + 1 :=
        ⟨cs.length - 1, by have := List.length_pos.mpr hcsne; omega⟩
      have h1 : n - 1 = m + 1 := by omega
      have h3 : cs.length - 1 = m := by omega
      rw [h3, h1, List.replicate_succ, List.cons_append]

/-- C1 witness: the two chunks of a two-chunk message delivered out of
order (sequence number 2 first, then 1) through a fresh accumulator:
none on the first accept, the completed set on the second. -/
theorem accumulator_permutation_complete_witness :
    ∃ s acc',
      ChunkAccumulator.feed ChunkAccumulator.fresh
          [{ id := [1, 2, 3, 4, 5, 6, 7, 8], sequence_number := 2,
             sequence_count := 2, payload := [0x42], arrival := 0 },
           { id := [1, 2, 3, 4, 5, 6, 7, 8], sequence_number := 1,
             sequence_count := 2, payload := [0x41], arrival := 1 }]
        = some (List.replicate (2 - 1) none ++ [some s], acc') ∧
      s.chunks.length = 2 ∧
      (∀ j, j < 2 → ∃ c,
        c ∈ [{ id := [1, 2, 3, 4, 5, 6, 7, 8], sequence_number := 2,
               sequence_count := 2, payload := [0x42], arrival := 0 },
             { id := [1, 2, 3, 4, 5, 6, 7, 8], sequence_number := 1,
               sequence_count := 2, payload := [0x41], arrival := 1 }] ∧
        c.sequence_number = j + 1 ∧ s.chunks[j]? = some (some c)) :=
  accumulator_permutation_complete 2 [1, 2, 3, 4, 5, 6, 7, 8]
    [{ id := [1, 2, 3, 4, 5, 6, 7, 8], sequence_number := 2,
       sequence_count := 2, payload := [0x42], arrival := 0 },
     { id := [1, 2, 3, 4, 5, 6, 7, 8], sequence_number := 1,
       sequence_count := 2, payload := [0x41], arrival := 1 }]
    (by decide) (by decide)
    (by
      intro x hx
      rcases List.mem_cons.mp hx with rfl | hx2
      · exact ⟨rfl, rfl, by decide, by decide⟩
      · rcases List.mem_cons.mp hx2 with rfl | hx3
        · exact ⟨rfl, rfl, by decide, by decide⟩
        · exact absurd hx3 (List.not_mem_nil x))
    (by decide)
